import Mathlib

/-!
Shallow embedding of the static-router program (`router.cpp` / `router.h`):
address/prefix utilities, the route-table loader, and the forwarding
decision engine.  Machine integers: `uint32_t` values are `Nat` reduced
`% 2 ^ 32` where the C++ arithmetic wraps; the C++ `int` fields (mask
lengths, the `bestMask` accumulator) are `Int`.
-/

/-- Decimal-digit test for a character, mirroring what `operator>>` into an
unsigned integer accepts from the stream (the characters `'0'`..`'9'`). -/
def isNumChar (c : Char) : Bool :=
  48 ≤ c.toNat && c.toNat ≤ 57

/-- Numeric field extraction of `std::stringstream` `operator>>` into an
unsigned integer: consume leading decimal digits, accumulating their value
onto `acc`, and stop at the first non-digit, returning the value and the
unconsumed remainder of the stream. -/
def parseNumAux (acc : Nat) : List Char → Nat × List Char
  | [] => (acc, [])
  | c :: cs =>
    if isNumChar c then parseNumAux (10 * acc + (c.toNat - 48)) cs
    else (acc, c :: cs)

/-- The stream read `ss >> dot` into a `char`: consume one character. -/
def readChar : List Char → List Char
  | [] => []
  | _ :: cs => cs

/-- Embedding of `ipToNum` (router.cpp:11-17): extract four numeric fields
separated by single characters and combine them as
`(b1 << 24) | (b2 << 16) | (b3 << 8) | b4` in `uint32_t` arithmetic; each
shift wraps `% 2 ^ 32` as the C++ unsigned shift does.  The `% 2 ^ 32` on
each extracted field only records the `uint32_t` storage type: the
embedding is exact for fields below `2 ^ 32` and is used only there —
for a field `≥ 2 ^ 32` the C++ stream extraction instead saturates to
`UINT32_MAX` and sets failbit, so the remaining fields go unread, which
this model does not reproduce. -/
def ipToNum (s : String) : Nat :=
  let p1 := parseNumAux 0 s.data
  let p2 := parseNumAux 0 (readChar p1.2)
  let p3 := parseNumAux 0 (readChar p2.2)
  let p4 := parseNumAux 0 (readChar p3.2)
  let b1 := p1.1 % 4294967296
  let b2 := p2.1 % 4294967296
  let b3 := p3.1 % 4294967296
  let b4 := p4.1 % 4294967296
  ((b1 <<< 24) % 4294967296) ||| ((b2 <<< 16) % 4294967296) |||
  ((b3 <<< 8) % 4294967296) ||| b4

/-- Fuelled helper for the decimal digits of a natural number; any fuel
above the number itself is enough, and the fuel keeps the recursion
structural so that the kernel can evaluate it. -/
def digitsOfAux : Nat → Nat → List Nat
  | 0, _ => []
  | fuel + 1, n =>
    if n < 10 then [n] else digitsOfAux fuel (n / 10) ++ [n % 10]

/-- The list of decimal digits of `n`, most significant first; this is the
digit sequence `std::to_string` renders for an unsigned value. -/
def digitsOf (n : Nat) : List Nat :=
  digitsOfAux (n + 1) n

/-- Canonical decimal rendering of a natural number, as `std::to_string`
produces for a `uint32_t` value. -/
def natToStr (n : Nat) : String :=
  ⟨(digitsOf n).map Nat.digitChar⟩

/-- Embedding of `numToIP` (router.cpp:20-22): render the four octets
`(ip >> s) & 0xFF`, most significant first, joined by dots. -/
def numToIP (ip : Nat) : String :=
  natToStr ((ip >>> 24) &&& 0xFF) ++ "." ++ natToStr ((ip >>> 16) &&& 0xFF) ++ "." ++
  natToStr ((ip >>> 8) &&& 0xFF) ++ "." ++ natToStr (ip &&& 0xFF)

/-- Embedding of `applyMask` (router.cpp:25-31): `maskLen == 0` is an
explicit special case returning `0`; otherwise the mask is the `uint32_t`
value `0xFFFFFFFF << (32 - maskLen)` (the unsigned shift wraps `% 2 ^ 32`;
for `maskLen` outside `[0, 32]` the C++ shift is undefined behaviour, and
this embedding totalises it by clamping the shift amount at `0` via
`Int.toNat`). -/
def applyMask (ip : Nat) (maskLen : Int) : Nat :=
  if maskLen = 0 then 0
  else ip &&& ((4294967295 <<< (32 - maskLen).toNat) % 4294967296)

/-- `InterfaceEntry` of router.h: a configured local interface. -/
structure InterfaceEntry where
  name : String
  ip : Nat
  maskLen : Int
  network : Nat
deriving DecidableEq, Repr

/-- `RouteEntry` of router.h: a routing-table entry. -/
structure RouteEntry where
  network : Nat
  maskLen : Int
  nextHop : Nat
deriving DecidableEq, Repr

/-- The route-matching test used throughout router.cpp:
`applyMask(dest, r.maskLen) == r.network`. -/
def matchesRoute (dest : Nat) (r : RouteEntry) : Prop :=
  applyMask dest r.maskLen = r.network

instance (dest : Nat) (r : RouteEntry) : Decidable (matchesRoute dest r) :=
  inferInstanceAs (Decidable (applyMask dest r.maskLen = r.network))

/-- The loop of `findRoute` (router.cpp:100-114) with its accumulator made
explicit: `best` is the `RouteEntry* best` pointer (as an option) and
`bestMask` the `int bestMask` variable, initialised to `-1` by the caller. -/
def findRouteAux (dest : Nat) (best : Option RouteEntry) (bestMask : Int) :
    List RouteEntry → Option RouteEntry
  | [] => best
  | r :: rs =>
    if applyMask dest r.maskLen = r.network then
      if r.maskLen > bestMask then findRouteAux dest (some r) r.maskLen rs
      else findRouteAux dest best bestMask rs
    else findRouteAux dest best bestMask rs

/-- Embedding of `findRoute` (router.cpp:100-114): longest-prefix scan over
the route list starting from `best = nullptr`, `bestMask = -1`. -/
def findRoute (dest : Nat) (routes : List RouteEntry) : Option RouteEntry :=
  findRouteAux dest none (-1) routes

/-- Embedding of `findOutgoingInterface` (router.cpp:117-124): first
interface whose subnet contains `nextHop`. -/
def findOutgoingInterface (nextHop : Nat) : List InterfaceEntry → Option InterfaceEntry
  | [] => none
  | iface :: rest =>
    if applyMask nextHop iface.maskLen = iface.network then some iface
    else findOutgoingInterface nextHop rest

/-- Embedding of `processPacket` (router.cpp:126-157), returning the line
written to the decision stream `out`.  The direct-attachment interface loop
(router.cpp:128-134) is commented out in the source, so the function goes
straight to the route lookup; `std::endl` is the newline character.  The
`debugLevel`-gated `DEBUG` trace goes to a separate diagnostic stream and is
not part of the decision output. -/
def processPacket (dest : Nat) (interfaces : List InterfaceEntry)
    (routes : List RouteEntry) : String :=
  match findRoute dest routes with
  | none => numToIP dest ++ ": unreachable\n"
  | some route =>
    match findOutgoingInterface route.nextHop interfaces with
    | none => "Destination " ++ numToIP dest ++ " is unreachable.\n"
    | some iface =>
      "Packet destination is " ++ numToIP dest ++ ", leaving router from interface " ++
      iface.name ++ " to next hop " ++ numToIP route.nextHop ++ "\n"

/-- Embedding of `parseRoutes` (router.cpp:68-97) above the regex layer: the
input is the per-line result of matching
`^\s*([0-9.]+)/([0-9]+)\s+([0-9.]+)\s*$` — `none` for a blank, comment or
non-matching line (skipped), `some (netStr, m, hopStr)` for the three
captured fields (the mask field, captured by `[0-9]+` and read with `stoi`,
is a natural number).  A matching line yields one entry with
`network = applyMask(ipToNum(netStr), m)` (router.cpp:88). -/
def parseRoutes : List (Option (String × Nat × String)) → List RouteEntry
  | [] => []
  | none :: rest => parseRoutes rest
  | some (netStr, m, hopStr) :: rest =>
    { network := applyMask (ipToNum netStr) (m : Int),
      maskLen := (m : Int),
      nextHop := ipToNum hopStr } :: parseRoutes rest

/-- The tables held by `main` after loading: `processPacket` receives both
by non-const reference, so the embedding threads them through explicitly. -/
structure RouterState where
  interfaces : List InterfaceEntry
  routes : List RouteEntry
deriving DecidableEq

/-- State-threaded form of `processPacket`: the body only reads the two
tables (every access in router.cpp:126-157 is a read), so the state is
returned alongside the decision line. -/
def processPacketSt (dest : Nat) (st : RouterState) : String × RouterState :=
  match findRoute dest st.routes with
  | none => (numToIP dest ++ ": unreachable\n", st)
  | some route =>
    match findOutgoingInterface route.nextHop st.interfaces with
    | none => ("Destination " ++ numToIP dest ++ " is unreachable.\n", st)
    | some iface =>
      ("Packet destination is " ++ numToIP dest ++ ", leaving router from interface " ++
       iface.name ++ " to next hop " ++ numToIP route.nextHop ++ "\n", st)

/-- The per-line loop of `main` (router.cpp:241-250): process each
destination in order against the tables, threading the shared state. -/
def processLoop : List Nat → RouterState → List String × RouterState
  | [], st => ([], st)
  | d :: ds, st =>
    let p := processPacketSt d st
    let q := processLoop ds p.2
    (p.1 :: q.1, q.2)

/-- Canonical dotted-decimal string `o1.o2.o3.o4` built from four numeric
fields (each octet rendered as `std::to_string` would). -/
def ipStr (o1 o2 o3 o4 : Nat) : String :=
  natToStr o1 ++ "." ++ natToStr o2 ++ "." ++ natToStr o3 ++ "." ++ natToStr o4

/-- C9: `applyMask(addr, 0)` is `0` for every address, by the explicit
`maskLen == 0` special case at router.cpp:26-28. -/
theorem applyMask_zero (addr : Nat) : applyMask addr 0 = 0 := rfl

/-- Once `best` holds a route, the scan never returns to the null state. -/
theorem findRouteAux_some_of_best (dest : Nat) (rs : List RouteEntry) :
    ∀ b bm, ∃ r, findRouteAux dest (some b) bm rs = some r := by
  induction rs with
  | nil => intro b bm; exact ⟨b, rfl⟩
  | cons s rs ih =>
    intro b bm
    by_cases hm : applyMask dest s.maskLen = s.network
    · by_cases hgt : s.maskLen > bm
      · simpa only [findRouteAux, if_pos hm, if_pos hgt] using ih s s.maskLen
      · simpa only [findRouteAux, if_pos hm, if_neg hgt] using ih b bm
    · simpa only [findRouteAux, if_neg hm] using ih b bm

/-- A route returned by the scan is either the incoming `best` or a matching
member of the scanned list. -/
theorem findRouteAux_mem (dest : Nat) (rs : List RouteEntry) :
    ∀ best bm r, findRouteAux dest best bm rs = some r →
      best = some r ∨ (r ∈ rs ∧ matchesRoute dest r) := by
  induction rs with
  | nil => intro best bm r h; exact Or.inl h
  | cons s rs ih =>
    intro best bm r h
    by_cases hm : applyMask dest s.maskLen = s.network
    · by_cases hgt : s.maskLen > bm
      · rw [findRouteAux, if_pos hm, if_pos hgt] at h
        rcases ih _ _ _ h with h1 | ⟨hmem, hmatch⟩
        · injection h1 with h1
          exact Or.inr ⟨h1 ▸ List.mem_cons_self s rs, h1 ▸ hm⟩
        · exact Or.inr ⟨List.mem_cons_of_mem _ hmem, hmatch⟩
      · rw [findRouteAux, if_pos hm, if_neg hgt] at h
        rcases ih _ _ _ h with h1 | ⟨hmem, hmatch⟩
        · exact Or.inl h1
        · exact Or.inr ⟨List.mem_cons_of_mem _ hmem, hmatch⟩
    · rw [findRouteAux, if_neg hm] at h
      rcases ih _ _ _ h with h1 | ⟨hmem, hmatch⟩
      · exact Or.inl h1
      · exact Or.inr ⟨List.mem_cons_of_mem _ hmem, hmatch⟩

/-- The mask of the returned route never drops below the incoming
`bestMask`, provided `bestMask` is the mask of the incoming `best`. -/
theorem findRouteAux_mono (dest : Nat) (rs : List RouteEntry) :
    ∀ best bm r, (∀ b, best = some b → bm = b.maskLen) →
      findRouteAux dest best bm rs = some r → bm ≤ r.maskLen := by
  induction rs with
  | nil =>
    intro best bm r hinv h
    exact le_of_eq (hinv r h)
  | cons s rs ih =>
    intro best bm r hinv h
    by_cases hm : applyMask dest s.maskLen = s.network
    · by_cases hgt : s.maskLen > bm
      · rw [findRouteAux, if_pos hm, if_pos hgt] at h
        have := ih (some s) s.maskLen r (fun b hb => by cases hb; rfl) h
        omega
      · rw [findRouteAux, if_pos hm, if_neg hgt] at h
        exact ih best bm r hinv h
    · rw [findRouteAux, if_neg hm] at h
      exact ih best bm r hinv h

/-- Maximality of the scan: the returned route's mask dominates the mask of
every matching route in the scanned list. -/
theorem findRouteAux_max (dest : Nat) (rs : List RouteEntry) :
    ∀ best bm r, (∀ b, best = some b → bm = b.maskLen) →
      findRouteAux dest best bm rs = some r →
      ∀ s ∈ rs, matchesRoute dest s → s.maskLen ≤ r.maskLen := by
  induction rs with
  | nil => intro best bm r _ _ s hs; cases hs
  | cons t rs ih =>
    intro best bm r hinv h s hs hsm
    by_cases hm : applyMask dest t.maskLen = t.network
    · by_cases hgt : t.maskLen > bm
      · rw [findRouteAux, if_pos hm, if_pos hgt] at h
        have hinv' : ∀ b, (some t : Option RouteEntry) = some b → t.maskLen = b.maskLen :=
          fun b hb => by cases hb; rfl
        rcases List.mem_cons.1 hs with h1 | h1
        · subst h1
          exact findRouteAux_mono dest rs (some s) s.maskLen r hinv' h
        · exact ih (some t) t.maskLen r hinv' h s h1 hsm
      · rw [findRouteAux, if_pos hm, if_neg hgt] at h
        rcases List.mem_cons.1 hs with h1 | h1
        · subst h1
          have := findRouteAux_mono dest rs best bm r hinv h
          omega
        · exact ih best bm r hinv h s h1 hsm
    · rw [findRouteAux, if_neg hm] at h
      rcases List.mem_cons.1 hs with h1 | h1
      · subst h1; exact absurd hsm hm
      · exact ih best bm r hinv h s h1 hsm

/-- With no matching route in the list, the scan returns its incoming
`best` unchanged. -/
theorem findRouteAux_no_match (dest : Nat) (rs : List RouteEntry) :
    ∀ best bm, (∀ s ∈ rs, ¬ matchesRoute dest s) →
      findRouteAux dest best bm rs = best := by
  induction rs with
  | nil => intro best bm _; rfl
  | cons s rs ih =>
    intro best bm hno
    have hm : ¬ applyMask dest s.maskLen = s.network :=
      hno s (List.mem_cons_self s rs)
    rw [findRouteAux, if_neg hm]
    exact ih best bm (fun t ht => hno t (List.mem_cons_of_mem _ ht))

/-- If some route in the list matches with a mask above the incoming
`bestMask`, the scan yields a route. -/
theorem findRouteAux_found (dest : Nat) (rs : List RouteEntry) :
    ∀ best bm s, s ∈ rs → matchesRoute dest s → bm < s.maskLen →
      ∃ r, findRouteAux dest best bm rs = some r := by
  induction rs with
  | nil => intro best bm s hs; cases hs
  | cons t rs ih =>
    intro best bm s hs hsm hlt
    by_cases hm : applyMask dest t.maskLen = t.network
    · by_cases hgt : t.maskLen > bm
      · rw [findRouteAux, if_pos hm, if_pos hgt]
        exact findRouteAux_some_of_best dest rs t t.maskLen
      · rw [findRouteAux, if_pos hm, if_neg hgt]
        rcases List.mem_cons.1 hs with h1 | h1
        · subst h1; exact absurd hlt (by omega)
        · exact ih best bm s h1 hsm hlt
    · rw [findRouteAux, if_neg hm]
      rcases List.mem_cons.1 hs with h1 | h1
      · subst h1; exact absurd hsm hm
      · exact ih best bm s h1 hsm hlt

/-- A route returned by `findRoute` is a matching member of the list. -/
theorem findRoute_mem (dest : Nat) (rs : List RouteEntry) (r : RouteEntry)
    (h : findRoute dest rs = some r) : r ∈ rs ∧ matchesRoute dest r := by
  rcases findRouteAux_mem dest rs none (-1) r h with h1 | h2
  · cases h1
  · exact h2

/-- A route returned by `findRoute` has maximal mask among matches. -/
theorem findRoute_max (dest : Nat) (rs : List RouteEntry) (r : RouteEntry)
    (h : findRoute dest rs = some r) :
    ∀ s ∈ rs, matchesRoute dest s → s.maskLen ≤ r.maskLen :=
  findRouteAux_max dest rs none (-1) r (fun b hb => by cases hb) h

/-- With no matching route, `findRoute` returns the null pointer. -/
theorem findRoute_none (dest : Nat) (rs : List RouteEntry)
    (h : ∀ s ∈ rs, ¬ matchesRoute dest s) : findRoute dest rs = none :=
  findRouteAux_no_match dest rs none (-1) h

/-- A matching route of nonnegative mask guarantees `findRoute` yields one. -/
theorem findRoute_isSome (dest : Nat) (rs : List RouteEntry) (s : RouteEntry)
    (hs : s ∈ rs) (hsm : matchesRoute dest s) (hnn : 0 ≤ s.maskLen) :
    ∃ r, findRoute dest rs = some r :=
  findRouteAux_found dest rs none (-1) s hs hsm (by omega)

/-- C2: among the matching routes, `findRoute` selects one with the largest
`maskLen`; when a matching route exists it does select one; and when the
matching routes' masks are pairwise distinct, the selection does not depend
on the order of the route list. -/
theorem findRoute_longest_match_order_indep (dest : Nat)
    (rs1 rs2 : List RouteEntry) (hperm : rs1.Perm rs2)
    (hnn : ∀ r ∈ rs1, 0 ≤ r.maskLen)
    (hdist : ∀ r ∈ rs1, ∀ s ∈ rs1, matchesRoute dest r → matchesRoute dest s →
      r.maskLen = s.maskLen → r = s) :
    (∀ r, findRoute dest rs1 = some r →
        r ∈ rs1 ∧ matchesRoute dest r ∧
        ∀ s ∈ rs1, matchesRoute dest s → s.maskLen ≤ r.maskLen) ∧
    (∀ s ∈ rs1, matchesRoute dest s → ∃ r, findRoute dest rs1 = some r) ∧
    findRoute dest rs1 = findRoute dest rs2 := by
  refine ⟨?_, ?_, ?_⟩
  · intro r h
    obtain ⟨hmem, hmatch⟩ := findRoute_mem dest rs1 r h
    exact ⟨hmem, hmatch, findRoute_max dest rs1 r h⟩
  · intro s hs hsm
    exact findRoute_isSome dest rs1 s hs hsm (hnn s hs)
  · cases h1 : findRoute dest rs1 with
    | none =>
      cases h2 : findRoute dest rs2 with
      | none => rfl
      | some r2 =>
        obtain ⟨hmem2, hmatch2⟩ := findRoute_mem dest rs2 r2 h2
        have hmem1 : r2 ∈ rs1 := hperm.symm.subset hmem2
        obtain ⟨r, hr⟩ := findRoute_isSome dest rs1 r2 hmem1 hmatch2 (hnn _ hmem1)
        rw [h1] at hr
        cases hr
    | some r1 =>
      obtain ⟨hmem1, hmatch1⟩ := findRoute_mem dest rs1 r1 h1
      cases h2 : findRoute dest rs2 with
      | none =>
        have hmem2 : r1 ∈ rs2 := hperm.subset hmem1
        obtain ⟨r, hr⟩ := findRoute_isSome dest rs2 r1 hmem2 hmatch1 (hnn _ hmem1)
        rw [h2] at hr
        cases hr
      | some r2 =>
        obtain ⟨hmem2, hmatch2⟩ := findRoute_mem dest rs2 r2 h2
        have hmem2' : r2 ∈ rs1 := hperm.symm.subset hmem2
        have hle1 : r2.maskLen ≤ r1.maskLen :=
          findRoute_max dest rs1 r1 h1 r2 hmem2' hmatch2
        have hle2 : r1.maskLen ≤ r2.maskLen :=
          findRoute_max dest rs2 r2 h2 r1 (hperm.subset hmem1) hmatch1
        rw [hdist r1 hmem1 r2 hmem2' hmatch1 hmatch2 (le_antisymm hle2 hle1)]

/-- Witness for C2: routes `10.0.0.0/8 -> 1.1.1.1` and `10.1.0.0/16 ->
2.2.2.2` with destination `10.1.2.3` select the `/16` route in either list
order. -/
theorem findRoute_longest_match_order_indep_witness :
    findRoute 167838211
        [⟨167772160, 8, 16843009⟩, ⟨167837696, 16, 33686018⟩] =
      some ⟨167837696, 16, 33686018⟩ ∧
    findRoute 167838211
        [⟨167772160, 8, 16843009⟩, ⟨167837696, 16, 33686018⟩] =
      findRoute 167838211
        [⟨167837696, 16, 33686018⟩, ⟨167772160, 8, 16843009⟩] := by
  have h := findRoute_longest_match_order_indep 167838211
    [⟨167772160, 8, 16843009⟩, ⟨167837696, 16, 33686018⟩]
    [⟨167837696, 16, 33686018⟩, ⟨167772160, 8, 16843009⟩]
    (List.Perm.swap _ _ _) (by decide) (by decide)
  exact ⟨by decide, h.2.2⟩

/-- Once the scan holds a route whose mask every later match fails to
exceed strictly, that route is kept to the end. -/
theorem findRouteAux_keep (dest : Nat) (r : RouteEntry) (l2 : List RouteEntry) :
    (∀ s ∈ l2, matchesRoute dest s → s.maskLen ≤ r.maskLen) →
    findRouteAux dest (some r) r.maskLen l2 = some r := by
  induction l2 with
  | nil => intro _; rfl
  | cons s l2 ih =>
    intro h
    by_cases hm : applyMask dest s.maskLen = s.network
    · have hle : s.maskLen ≤ r.maskLen := h s (List.mem_cons_self s l2) hm
      have hgt : ¬ s.maskLen > r.maskLen := by omega
      rw [findRouteAux, if_pos hm, if_neg hgt]
      exact ih (fun t ht => h t (List.mem_cons_of_mem _ ht))
    · rw [findRouteAux, if_neg hm]
      exact ih (fun t ht => h t (List.mem_cons_of_mem _ ht))

/-- Scanning past matches that are all strictly shorter than `r`, the scan
reaches `r`, takes it, and keeps it against the remainder. -/
theorem findRouteAux_reach (dest : Nat) (r : RouteEntry) (l2 : List RouteEntry)
    (hm : matchesRoute dest r)
    (h2 : ∀ s ∈ l2, matchesRoute dest s → s.maskLen ≤ r.maskLen) :
    ∀ (l1 : List RouteEntry) best bm, bm < r.maskLen →
      (∀ s ∈ l1, matchesRoute dest s → s.maskLen < r.maskLen) →
      findRouteAux dest best bm (l1 ++ r :: l2) = some r := by
  intro l1
  induction l1 with
  | nil =>
    intro best bm hbm _
    have hgt : r.maskLen > bm := hbm
    have hm' : applyMask dest r.maskLen = r.network := hm
    rw [List.nil_append, findRouteAux, if_pos hm', if_pos hgt]
    exact findRouteAux_keep dest r l2 h2
  | cons s l1 ih =>
    intro best bm hbm h1
    rw [List.cons_append]
    by_cases hsm : applyMask dest s.maskLen = s.network
    · by_cases hgt : s.maskLen > bm
      · rw [findRouteAux, if_pos hsm, if_pos hgt]
        exact ih (some s) s.maskLen (h1 s (List.mem_cons_self s l1) hsm)
          (fun t ht => h1 t (List.mem_cons_of_mem _ ht))
      · rw [findRouteAux, if_pos hsm, if_neg hgt]
        exact ih best bm hbm (fun t ht => h1 t (List.mem_cons_of_mem _ ht))
    · rw [findRouteAux, if_neg hsm]
      exact ih best bm hbm (fun t ht => h1 t (List.mem_cons_of_mem _ ht))

/-- C3: ties in `maskLen` go to the first route in list order — a route `r`
is returned whenever every matching route before it is strictly shorter and
every matching route after it is no longer than `r` (a later matching route
replaces the current best only when strictly longer). -/
theorem findRoute_tiebreak_first (dest : Nat) (l1 l2 : List RouteEntry)
    (r : RouteEntry) (hm : matchesRoute dest r) (hnn : 0 ≤ r.maskLen)
    (h1 : ∀ s ∈ l1, matchesRoute dest s → s.maskLen < r.maskLen)
    (h2 : ∀ s ∈ l2, matchesRoute dest s → s.maskLen ≤ r.maskLen) :
    findRoute dest (l1 ++ r :: l2) = some r :=
  findRouteAux_reach dest r l2 hm h2 l1 none (-1) (by omega) h1

/-- Witness for C3: two matching routes with identical `network` and
`maskLen` but different `nextHop` — the first one in list order is
returned. -/
theorem findRoute_tiebreak_first_witness :
    matchesRoute 167838211 ⟨167772160, 8, 16843009⟩ ∧
    findRoute 167838211
        [⟨167772160, 8, 16843009⟩, ⟨167772160, 8, 33686018⟩] =
      some ⟨167772160, 8, 16843009⟩ :=
  ⟨by decide,
   findRoute_tiebreak_first 167838211 [] [⟨167772160, 8, 33686018⟩]
     ⟨167772160, 8, 16843009⟩ (by decide) (by decide) (by decide) (by decide)⟩

/-- C5: when no route matches the destination, the decision is the
no-route unreachable line (no next hop, no outgoing interface), produced as
a normal outcome. -/
theorem processPacket_no_route_unreachable (dest : Nat)
    (interfaces : List InterfaceEntry) (routes : List RouteEntry)
    (h : ∀ r ∈ routes, ¬ matchesRoute dest r) :
    processPacket dest interfaces routes = numToIP dest ++ ": unreachable\n" := by
  simp only [processPacket, findRoute_none dest routes h]

/-- Witness for C5: destination `8.8.8.8` against a table covering only
`10.0.0.0/8` is reported unreachable. -/
theorem processPacket_no_route_unreachable_witness :
    (∀ r ∈ [({ network := 167772160, maskLen := 8, nextHop := 16843009 } : RouteEntry)],
      ¬ matchesRoute 134744072 r) ∧
    processPacket 134744072 [⟨"eth0", 3232235777, 24, 3232235776⟩]
        [⟨167772160, 8, 16843009⟩] =
      numToIP 134744072 ++ ": unreachable\n" :=
  ⟨by decide,
   processPacket_no_route_unreachable 134744072
     [⟨"eth0", 3232235777, 24, 3232235776⟩]
     [⟨167772160, 8, 16843009⟩] (by decide)⟩

/-- The state-threaded decision agrees with the pure one and returns the
tables untouched: the body of `processPacket` only reads them. -/
theorem processPacketSt_frame (dest : Nat) (st : RouterState) :
    processPacketSt dest st = (processPacket dest st.interfaces st.routes, st) := by
  cases hr : findRoute dest st.routes with
  | none => simp only [processPacketSt, processPacket, hr]
  | some route =>
    cases hi : findOutgoingInterface route.nextHop st.interfaces with
    | none => simp only [processPacketSt, processPacket, hr, hi]
    | some iface => simp only [processPacketSt, processPacket, hr, hi]

/-- C8: the main loop is a pure map over the destinations — every entry of
both tables is returned unchanged after each decision, and each decision
line is the pure function of `(dest, interfaces, routes)` alone, so
decisions over the same tables are independent and deterministic. -/
theorem processLoop_pure_map (dests : List Nat) (st : RouterState) :
    processLoop dests st =
      (dests.map (fun d => processPacket d st.interfaces st.routes), st) := by
  induction dests with
  | nil => rfl
  | cons d ds ih =>
    simp only [processLoop, processPacketSt_frame, ih, List.map_cons]

/-- Any two sufficient fuels give the same digit list. -/
theorem digitsOfAux_fuel (f1 : Nat) :
    ∀ f2 n, n < f1 → n < f2 → digitsOfAux f1 n = digitsOfAux f2 n := by
  induction f1 with
  | zero => intro f2 n h1 _; exact absurd h1 (Nat.not_lt_zero n)
  | succ f1 ih =>
    intro f2 n h1 h2
    cases f2 with
    | zero => exact absurd h2 (Nat.not_lt_zero n)
    | succ f2 =>
      simp only [digitsOfAux]
      by_cases h : n < 10
      · rw [if_pos h, if_pos h]
      · rw [if_neg h, if_neg h]
        have hlt : n / 10 < n := Nat.div_lt_self (by omega) (by omega)
        rw [ih f2 (n / 10) (by omega) (by omega)]

/-- Recursive characterisation of `digitsOf`. -/
theorem digitsOf_eq (n : Nat) :
    digitsOf n = if n < 10 then [n] else digitsOf (n / 10) ++ [n % 10] := by
  by_cases h : n < 10
  · rw [if_pos h]
    show digitsOfAux (n + 1) n = [n]
    simp only [digitsOfAux]
    rw [if_pos h]
  · rw [if_neg h]
    show digitsOfAux (n + 1) n = digitsOf (n / 10) ++ [n % 10]
    simp only [digitsOfAux]
    rw [if_neg h]
    have hlt : n / 10 < n := Nat.div_lt_self (by omega) (by omega)
    rw [digitsOfAux_fuel n (n / 10 + 1) (n / 10) (by omega) (by omega)]
    rfl

/-- A digit list is never empty. -/
theorem digitsOf_ne_nil (n : Nat) : digitsOf n ≠ [] := by
  rw [digitsOf_eq]
  by_cases h : n < 10
  · simp [h]
  · simp [h]

/-- Every entry of a digit list is a decimal digit. -/
theorem digitsOf_lt (n : Nat) : ∀ d ∈ digitsOf n, d < 10 := by
  induction n using Nat.strong_induction_on with
  | _ n ih =>
    rw [digitsOf_eq]
    by_cases h : n < 10
    · simp only [if_pos h, List.mem_singleton]
      intro d hd
      omega
    · rw [if_neg h]
      intro d hd
      rcases List.mem_append.1 hd with h1 | h1
      · exact ih (n / 10) (Nat.div_lt_self (by omega) (by omega)) d h1
      · rw [List.mem_singleton] at h1
        omega

/-- A digit list starts with a decimal digit. -/
theorem digitsOf_cons (n : Nat) : ∃ d ds, digitsOf n = d :: ds ∧ d < 10 := by
  cases hd : digitsOf n with
  | nil => exact absurd hd (digitsOf_ne_nil n)
  | cons d ds =>
    refine ⟨d, ds, rfl, digitsOf_lt n d ?_⟩
    rw [hd]
    exact List.mem_cons_self d ds

/-- The ten decimal digit characters: digit test and code point. -/
theorem digitChar_isNum (d : Nat) (h : d < 10) :
    isNumChar (Nat.digitChar d) = true ∧ (Nat.digitChar d).toNat = 48 + d := by
  interval_cases d <;> exact ⟨rfl, rfl⟩

/-- The rendering of `natToStr` exposes its digit characters. -/
theorem natToStr_data (n : Nat) :
    (natToStr n).data = (digitsOf n).map Nat.digitChar := rfl

/-- A rendered natural number starts with a digit character. -/
theorem natToStr_head (n : Nat) :
    ∃ c cs, (natToStr n).data = c :: cs ∧ 48 ≤ c.toNat ∧ c.toNat ≤ 57 := by
  obtain ⟨d, ds, hd, hlt⟩ := digitsOf_cons n
  obtain ⟨_, hc⟩ := digitChar_isNum d hlt
  refine ⟨Nat.digitChar d, ds.map Nat.digitChar, ?_, by omega, by omega⟩
  rw [natToStr_data, hd, List.map_cons]

/-- The decision stream renders a destination starting with a digit
character. -/
theorem numToIP_head (ip : Nat) :
    ∃ c, (numToIP ip).data.head? = some c ∧ 48 ≤ c.toNat ∧ c.toNat ≤ 57 := by
  obtain ⟨c, cs, h, h1, h2⟩ := natToStr_head ((ip >>> 24) &&& 0xFF)
  refine ⟨c, ?_, h1, h2⟩
  simp only [numToIP, String.data_append, h, List.cons_append, List.head?_cons]

/-- Two strings with different head characters differ. -/
theorem string_head_ne (s t : String) (a b : Char)
    (hs : s.data.head? = some a) (ht : t.data.head? = some b) (h : a ≠ b) :
    s ≠ t := by
  intro he
  rw [he, ht] at hs
  exact h (Option.some.inj hs).symm

/-- When no interface's subnet contains the next hop, the interface scan
returns the null pointer. -/
theorem findOutgoingInterface_none (nextHop : Nat) (ifs : List InterfaceEntry)
    (h : ∀ iface ∈ ifs, applyMask nextHop iface.maskLen ≠ iface.network) :
    findOutgoingInterface nextHop ifs = none := by
  induction ifs with
  | nil => rfl
  | cons iface rest ih =>
    rw [findOutgoingInterface, if_neg (h iface (List.mem_cons_self iface rest))]
    exact ih (fun i hi => h i (List.mem_cons_of_mem _ hi))

/-- C4: a selected route whose next hop lies on no configured interface's
subnet produces the bad-next-hop unreachable line, and for every
destination that line differs from the no-route unreachable line. -/
theorem processPacket_bad_nexthop (dest : Nat) (interfaces : List InterfaceEntry)
    (routes : List RouteEntry) (r : RouteEntry)
    (hfr : findRoute dest routes = some r)
    (hno : ∀ iface ∈ interfaces, applyMask r.nextHop iface.maskLen ≠ iface.network) :
    processPacket dest interfaces routes =
      "Destination " ++ numToIP dest ++ " is unreachable.\n" ∧
    ("Destination " ++ numToIP dest ++ " is unreachable.\n" : String) ≠
      numToIP dest ++ ": unreachable\n" := by
  constructor
  · simp only [processPacket, hfr, findOutgoingInterface_none r.nextHop interfaces hno]
  · obtain ⟨c, hc, h1, h2⟩ := numToIP_head dest
    have hc' : (numToIP dest ++ ": unreachable\n").data.head? = some c := by
      simp only [String.data_append, List.head?_append, hc]
      rfl
    refine string_head_ne _ _ 'D' c ?_ hc' ?_
    · simp only [String.data_append, List.head?_append]
      rfl
    · intro he
      have h68 : c.toNat = 68 := by rw [← he]; rfl
      omega

/-- Witness for C4: route `10.0.0.0/8 -> 5.5.5.5` and a single interface
`eth0 192.168.1.1/24` — the next hop `5.5.5.5` is on no interface subnet,
so destination `10.1.2.3` gets the bad-next-hop unreachable line. -/
theorem processPacket_bad_nexthop_witness :
    findRoute 167838211 [⟨167772160, 8, 84215045⟩] =
      some ⟨167772160, 8, 84215045⟩ ∧
    processPacket 167838211 [⟨"eth0", 3232235777, 24, 3232235776⟩]
        [⟨167772160, 8, 84215045⟩] =
      "Destination " ++ numToIP 167838211 ++ " is unreachable.\n" := by
  have h := processPacket_bad_nexthop 167838211
    [⟨"eth0", 3232235777, 24, 3232235776⟩]
    [⟨167772160, 8, 84215045⟩] ⟨167772160, 8, 84215045⟩ (by decide) (by decide)
  exact ⟨by decide, h.1⟩

/-- Counterexample to C1: interface `eth0 192.168.1.1/24` contains the
destination `192.168.1.50`, yet with an empty route table `processPacket`
reports the destination unreachable from the route lookup instead of
delivering locally — the direct-attachment branch is commented out in the
source. -/
theorem processPacket_direct_delivery_cex :
    applyMask 3232235826 24 =
      (⟨"eth0", 3232235777, 24, 3232235776⟩ : InterfaceEntry).network ∧
    processPacket 3232235826 [⟨"eth0", 3232235777, 24, 3232235776⟩] [] =
      "192.168.1.50: unreachable\n" ∧
    processPacket 3232235826 [⟨"eth0", 3232235777, 24, 3232235776⟩] [] ≠
      "Packet now being sent to destination 192.168.1.50, leaving router from interface eth0\n" := by
  decide

/-- C1 (amended): the decision engine performs no direct-attachment check —
even when some interface's subnet contains the destination, the route table
is consulted, the direct-delivery line is never emitted, and with no
matching route the no-route unreachable outcome results. -/
theorem processPacket_no_direct_delivery (dest : Nat)
    (interfaces : List InterfaceEntry) (routes : List RouteEntry)
    (iface : InterfaceEntry) (_hmem : iface ∈ interfaces)
    (_hmatch : applyMask dest iface.maskLen = iface.network)
    (hnone : ∀ r ∈ routes, ¬ matchesRoute dest r) :
    processPacket dest interfaces routes = numToIP dest ++ ": unreachable\n" ∧
    processPacket dest interfaces routes ≠
      "Packet now being sent to destination " ++ numToIP dest ++
        ", leaving router from interface " ++ iface.name ++ "\n" := by
  have h1 : processPacket dest interfaces routes =
      numToIP dest ++ ": unreachable\n" := by
    simp only [processPacket, findRoute_none dest routes hnone]
  refine ⟨h1, ?_⟩
  rw [h1]
  obtain ⟨c, hc, hle1, hle2⟩ := numToIP_head dest
  have hcl : (numToIP dest ++ ": unreachable\n").data.head? = some c := by
    simp only [String.data_append, List.head?_append, hc]
    rfl
  have hcr : ("Packet now being sent to destination " ++ numToIP dest ++
      ", leaving router from interface " ++ iface.name ++ "\n").data.head? =
      some 'P' := by
    simp only [String.data_append, List.head?_append]
    rfl
  refine string_head_ne _ _ c 'P' hcl hcr ?_
  intro he
  have h80 : c.toNat = 80 := by rw [he]; rfl
  omega

/-- Witness for the amended C1: destination `192.168.1.50` lies on
`eth0 192.168.1.1/24`, the route table is empty, and the decision is the
no-route unreachable line. -/
theorem processPacket_no_direct_delivery_witness :
    ((⟨"eth0", 3232235777, 24, 3232235776⟩ : InterfaceEntry) ∈
      [(⟨"eth0", 3232235777, 24, 3232235776⟩ : InterfaceEntry)]) ∧
    applyMask 3232235826 24 = 3232235776 ∧
    processPacket 3232235826 [⟨"eth0", 3232235777, 24, 3232235776⟩] [] =
      numToIP 3232235826 ++ ": unreachable\n" := by
  have h := processPacket_no_direct_delivery 3232235826
    [⟨"eth0", 3232235777, 24, 3232235776⟩] []
    ⟨"eth0", 3232235777, 24, 3232235776⟩
    (List.mem_cons_self _ _) (by decide) (by decide)
  exact ⟨List.mem_cons_self _ _, by decide, h.1⟩

/-- Masking is idempotent: re-applying the same mask changes nothing. -/
theorem applyMask_idem (x : Nat) (m : Int) :
    applyMask (applyMask x m) m = applyMask x m := by
  unfold applyMask
  by_cases h : m = 0
  · simp [h]
  · simp only [if_neg h]
    rw [Nat.and_assoc, Nat.and_self]

/-- C7: every route the loader produces stores a network already reduced by
its own mask (the loader re-masks at construction, router.cpp:88), so no
host bits survive beyond the prefix. -/
theorem parseRoutes_network_masked (lines : List (Option (String × Nat × String))) :
    ∀ r ∈ parseRoutes lines, applyMask r.network r.maskLen = r.network := by
  induction lines with
  | nil => intro r hr; cases hr
  | cons line rest ih =>
    intro r hr
    cases line with
    | none =>
      rw [parseRoutes] at hr
      exact ih r hr
    | some t =>
      obtain ⟨s1, m, s3⟩ := t
      rw [parseRoutes] at hr
      rcases List.mem_cons.1 hr with h1 | h1
      · subst h1
        exact applyMask_idem (ipToNum s1) (m : Int)
      · exact ih r h1

/-- Witness for C7: the line `10.0.0.7/8 1.1.1.1` (host bits set in the
prefix) loads as network `10.0.0.0`, which its own mask leaves unchanged. -/
theorem parseRoutes_network_masked_witness :
    ((⟨167772160, 8, 16843009⟩ : RouteEntry) ∈
      parseRoutes [some ("10.0.0.7", 8, "1.1.1.1")]) ∧
    applyMask (167772160 : Nat) 8 = 167772160 :=
  ⟨by decide,
   parseRoutes_network_masked [some ("10.0.0.7", 8, "1.1.1.1")]
     ⟨167772160, 8, 16843009⟩ (by decide)⟩

/-- Consuming the digit run of `n` accumulates `n` onto `acc` positionally
and leaves the remainder of the stream untouched. -/
theorem parseNumAux_digits (n : Nat) :
    ∀ acc rest, parseNumAux acc ((digitsOf n).map Nat.digitChar ++ rest) =
      parseNumAux (acc * 10 ^ (digitsOf n).length + n) rest := by
  induction n using Nat.strong_induction_on with
  | _ n ih =>
    intro acc rest
    rw [digitsOf_eq]
    by_cases h : n < 10
    · rw [if_pos h]
      obtain ⟨hc1, hc2⟩ := digitChar_isNum n h
      simp only [List.map_cons, List.map_nil, List.length_cons, List.length_nil,
        List.cons_append, List.nil_append, parseNumAux, hc1, if_true, hc2]
      refine congrArg (fun a => parseNumAux a rest) ?_
      simp only [Nat.zero_add, pow_one]
      omega
    · rw [if_neg h]
      have hdiv : n / 10 < n := Nat.div_lt_self (by omega) (by omega)
      obtain ⟨hc1, hc2⟩ := digitChar_isNum (n % 10) (by omega)
      simp only [List.map_append, List.map_cons, List.map_nil, List.append_assoc,
        List.cons_append, List.nil_append, List.length_append, List.length_cons,
        List.length_nil]
      rw [ih (n / 10) hdiv acc (Nat.digitChar (n % 10) :: rest)]
      simp only [parseNumAux, hc1, if_true, hc2]
      refine congrArg (fun a => parseNumAux a rest) ?_
      have hrw : 48 + n % 10 - 48 = n % 10 := by omega
      rw [hrw]
      calc 10 * (acc * 10 ^ (digitsOf (n / 10)).length + n / 10) + n % 10
          = acc * (10 ^ (digitsOf (n / 10)).length * 10) +
              (10 * (n / 10) + n % 10) := by ring
        _ = acc * 10 ^ ((digitsOf (n / 10)).length + (0 + 1)) + n := by
              rw [pow_succ, Nat.div_add_mod]

/-- The extraction stops at a non-digit character. -/
theorem parseNumAux_stop (acc : Nat) (c : Char) (cs : List Char)
    (h : isNumChar c = false) : parseNumAux acc (c :: cs) = (acc, c :: cs) := by
  rw [parseNumAux, if_neg (by simp [h])]

/-- Reading the canonical rendering of `n` followed by a non-digit yields
exactly `n` and stops at that character. -/
theorem parseNum_natToStr (n : Nat) (rest : List Char) (c : Char)
    (h : isNumChar c = false) :
    parseNumAux 0 ((natToStr n).data ++ c :: rest) = (n, c :: rest) := by
  rw [natToStr_data, parseNumAux_digits n 0 (c :: rest), Nat.zero_mul, Nat.zero_add,
    parseNumAux_stop n c rest h]

/-- Reading the canonical rendering of `n` at the end of the stream yields
exactly `n`. -/
theorem parseNum_natToStr_end (n : Nat) :
    parseNumAux 0 (natToStr n).data = (n, []) := by
  have h : (natToStr n).data = (digitsOf n).map Nat.digitChar ++ [] := by
    rw [natToStr_data, List.append_nil]
  rw [h, parseNumAux_digits n 0 [], Nat.zero_mul, Nat.zero_add]
  rfl

/-- Character shape of a canonical dotted-decimal string. -/
theorem ipStr_data (o1 o2 o3 o4 : Nat) :
    (ipStr o1 o2 o3 o4).data =
      (natToStr o1).data ++ '.' :: ((natToStr o2).data ++ '.' ::
        ((natToStr o3).data ++ '.' :: (natToStr o4).data)) := by
  have hd : (".".data) = ['.'] := rfl
  simp only [ipStr, String.data_append, hd, List.append_assoc,
    List.singleton_append, List.cons_append, List.nil_append]

/-- Parsing a canonical dotted-decimal string recovers the four fields and
combines them exactly as the C++ expression does: each field reduced
`% 2 ^ 32`, shifted with unsigned wrap, and joined by bitwise or. -/
theorem ipToNum_ipStr_eq (o1 o2 o3 o4 : Nat) :
    ipToNum (ipStr o1 o2 o3 o4) =
      (((o1 % 4294967296) <<< 24) % 4294967296) |||
      (((o2 % 4294967296) <<< 16) % 4294967296) |||
      (((o3 % 4294967296) <<< 8) % 4294967296) ||| (o4 % 4294967296) := by
  have hdot : isNumChar '.' = false := rfl
  simp only [ipToNum, ipStr_data o1 o2 o3 o4, readChar,
    parseNum_natToStr _ _ '.' hdot, parseNum_natToStr_end]

/-- Counterexample to C10: on `0.0.1.999` the parser accepts the
out-of-range field, but the octets are combined with bitwise or, not
addition — the result is `999`, whereas the claimed carry formula
`(o1*2^24 + o2*2^16 + o3*2^8 + o4) mod 2^32` gives `1255`. -/
theorem ipToNum_carry_formula_cex :
    ipToNum "0.0.1.999" = 999 ∧
    (0 * 16777216 + 0 * 65536 + 1 * 256 + 999) % 4294967296 ≠ 999 := by
  decide

/-- C10 (amended): the parser performs no octet-range validation — on any
four decimal fields that fit in `uint32_t` it succeeds and returns the
bitwise or of the shifted fields (shifts wrapping as unsigned 32-bit
shifts), so excess bits of an oversized field such as `999` overlap (by
or) with the higher octet instead of carrying arithmetically. -/
theorem ipToNum_no_validation (o1 o2 o3 o4 : Nat)
    (h1 : o1 < 4294967296) (h2 : o2 < 4294967296)
    (h3 : o3 < 4294967296) (h4 : o4 < 4294967296) :
    ipToNum (ipStr o1 o2 o3 o4) =
      ((o1 <<< 24) % 4294967296) ||| ((o2 <<< 16) % 4294967296) |||
      ((o3 <<< 8) % 4294967296) ||| o4 := by
  rw [ipToNum_ipStr_eq, Nat.mod_eq_of_lt h1, Nat.mod_eq_of_lt h2,
    Nat.mod_eq_of_lt h3, Nat.mod_eq_of_lt h4]

/-- Witness for the amended C10: the out-of-range field `999` in
`0.0.1.999` is accepted, and the or-combination gives `999`, its bit 8
overlapping the third octet's contribution. -/
theorem ipToNum_no_validation_witness :
    ((0:Nat) < 4294967296 ∧ (0:Nat) < 4294967296 ∧
     (1:Nat) < 4294967296 ∧ (999:Nat) < 4294967296) ∧
    ipToNum (ipStr 0 0 1 999) =
      (((0:Nat) <<< 24) % 4294967296) ||| (((0:Nat) <<< 16) % 4294967296) |||
      (((1:Nat) <<< 8) % 4294967296) ||| 999 :=
  ⟨by decide,
   ipToNum_no_validation 0 0 1 999 (by decide) (by decide) (by decide)
     (by decide)⟩

/-- For in-range octets the packed value is the positional sum. -/
theorem ipToNum_octets (o1 o2 o3 o4 : Nat) (h1 : o1 ≤ 255) (h2 : o2 ≤ 255)
    (h3 : o3 ≤ 255) (h4 : o4 ≤ 255) :
    ipToNum (ipStr o1 o2 o3 o4) = o1 * 16777216 + o2 * 65536 + o3 * 256 + o4 := by
  rw [ipToNum_ipStr_eq]
  rw [Nat.mod_eq_of_lt (show o1 < 4294967296 by omega),
    Nat.mod_eq_of_lt (show o2 < 4294967296 by omega),
    Nat.mod_eq_of_lt (show o3 < 4294967296 by omega),
    Nat.mod_eq_of_lt (show o4 < 4294967296 by omega)]
  rw [Nat.shiftLeft_eq, Nat.shiftLeft_eq, Nat.shiftLeft_eq]
  rw [show (2:ℕ) ^ 24 = 16777216 by norm_num,
    show (2:ℕ) ^ 16 = 65536 by norm_num,
    show (2:ℕ) ^ 8 = 256 by norm_num]
  rw [Nat.mod_eq_of_lt (show o1 * 16777216 < 4294967296 by omega),
    Nat.mod_eq_of_lt (show o2 * 65536 < 4294967296 by omega),
    Nat.mod_eq_of_lt (show o3 * 256 < 4294967296 by omega)]
  have s1 : o1 * 16777216 ||| o2 * 65536 = o1 * 16777216 + o2 * 65536 := by
    have := Nat.mul_add_lt_is_or (show o2 * 65536 < 2 ^ 24 by omega) o1
    calc o1 * 16777216 ||| o2 * 65536
        = 2 ^ 24 * o1 ||| o2 * 65536 := by norm_num [Nat.mul_comm]
      _ = 2 ^ 24 * o1 + o2 * 65536 := this.symm
      _ = o1 * 16777216 + o2 * 65536 := by norm_num [Nat.mul_comm]
  have s2 : o1 * 16777216 + o2 * 65536 ||| o3 * 256 =
      o1 * 16777216 + o2 * 65536 + o3 * 256 := by
    have := Nat.mul_add_lt_is_or (show o3 * 256 < 2 ^ 16 by omega)
      (o1 * 256 + o2)
    calc o1 * 16777216 + o2 * 65536 ||| o3 * 256
        = 2 ^ 16 * (o1 * 256 + o2) ||| o3 * 256 := by ring_nf
      _ = 2 ^ 16 * (o1 * 256 + o2) + o3 * 256 := this.symm
      _ = o1 * 16777216 + o2 * 65536 + o3 * 256 := by ring_nf
  have s3 : o1 * 16777216 + o2 * 65536 + o3 * 256 ||| o4 =
      o1 * 16777216 + o2 * 65536 + o3 * 256 + o4 := by
    have := Nat.mul_add_lt_is_or (show o4 < 2 ^ 8 by omega)
      (o1 * 65536 + o2 * 256 + o3)
    calc o1 * 16777216 + o2 * 65536 + o3 * 256 ||| o4
        = 2 ^ 8 * (o1 * 65536 + o2 * 256 + o3) ||| o4 := by ring_nf
      _ = 2 ^ 8 * (o1 * 65536 + o2 * 256 + o3) + o4 := this.symm
      _ = o1 * 16777216 + o2 * 65536 + o3 * 256 + o4 := by ring_nf
  rw [s1, s2, s3]

/-- Octet extraction from a packed in-range value. -/
theorem octet_extract (o1 o2 o3 o4 : Nat) (h1 : o1 ≤ 255) (h2 : o2 ≤ 255)
    (h3 : o3 ≤ 255) (h4 : o4 ≤ 255) :
    ((o1 * 16777216 + o2 * 65536 + o3 * 256 + o4) >>> 24) &&& 0xFF = o1 ∧
    ((o1 * 16777216 + o2 * 65536 + o3 * 256 + o4) >>> 16) &&& 0xFF = o2 ∧
    ((o1 * 16777216 + o2 * 65536 + o3 * 256 + o4) >>> 8) &&& 0xFF = o3 ∧
    (o1 * 16777216 + o2 * 65536 + o3 * 256 + o4) &&& 0xFF = o4 := by
  have hmask : ∀ x : Nat, x &&& 0xFF = x % 256 := by
    intro x
    have h := Nat.and_pow_two_sub_one_eq_mod x 8
    norm_num at h
    exact h
  refine ⟨?_, ?_, ?_, ?_⟩
  · rw [Nat.shiftRight_eq_div_pow, show (2:ℕ) ^ 24 = 16777216 by norm_num, hmask]
    omega
  · rw [Nat.shiftRight_eq_div_pow, show (2:ℕ) ^ 16 = 65536 by norm_num, hmask]
    omega
  · rw [Nat.shiftRight_eq_div_pow, show (2:ℕ) ^ 8 = 256 by norm_num, hmask]
    omega
  · rw [hmask]
    omega

/-- C6: parse-then-format round trip — for octets in `0..255`,
`numToIP (ipToNum s)` returns `s` for the canonical dotted-decimal
rendering `s = o1.o2.o3.o4`. -/
theorem numToIP_ipToNum_roundtrip (o1 o2 o3 o4 : Nat) (h1 : o1 ≤ 255)
    (h2 : o2 ≤ 255) (h3 : o3 ≤ 255) (h4 : o4 ≤ 255) :
    numToIP (ipToNum (ipStr o1 o2 o3 o4)) = ipStr o1 o2 o3 o4 := by
  rw [ipToNum_octets o1 o2 o3 o4 h1 h2 h3 h4]
  obtain ⟨e1, e2, e3, e4⟩ := octet_extract o1 o2 o3 o4 h1 h2 h3 h4
  rw [numToIP, e1, e2, e3, e4]
  rfl

/-- Witness for C6: `192.168.1.50` round-trips. -/
theorem numToIP_ipToNum_roundtrip_witness :
    (192 ≤ 255 ∧ 168 ≤ 255 ∧ 1 ≤ 255 ∧ 50 ≤ 255) ∧
    numToIP (ipToNum (ipStr 192 168 1 50)) = ipStr 192 168 1 50 :=
  ⟨by decide,
   numToIP_ipToNum_roundtrip 192 168 1 50 (by decide) (by decide) (by decide)
     (by decide)⟩
